import Mathlib

/-!
Verification development for the Poseidon2 `Pow5` chip
(`src/poseidon2/src/circuit/pow5.rs`): a Poseidon permutation gadget with an
x^5 S-box for a Plonkish constraint system, together with theorems checking
its natural-language specification against the code.

Modelling conventions (shallow embedding):

* The halo2 `Value<F>` type is embedded as `Option F`: `none` is
  `Value::unknown()` and `some v` is `Value::known(v)`.  Collecting an
  iterator of values into `Value<Vec<F>>` yields the whole vector when every
  entry is known and `unknown` otherwise; this is `collectV` below.
* A Rust `panic!` or a failed `assert!` is embedded as an `Except.error`
  carrying a distinct `SynthErr` constructor.  The constraint-system engine
  collaborator (region and column allocation, cell assignment) is modelled as
  always succeeding, since the gadget propagates its errors unchanged and
  never inspects them.
* Rust `usize` round and row indices are `Nat`.  The field type `F` is an
  arbitrary commutative ring, which supplies the add / mul / pow operations
  the code uses.
* `alpha = [5, 0, 0, 0]` (four u64 limbs, little endian) denotes the
  exponent 5; it is embedded as the constant `alphaExp`.
-/

/-- The fixed enumeration of supported state widths
(`pub const WIDTH_CHOICES: [usize; 8]`, pow5.rs line 14). -/
def WIDTH_CHOICES : List Nat := [2, 3, 4, 8, 12, 16, 20, 24]

/-- Failure modes of the gadget.  The three configure-time constructors embed
the three `assert!` statements at pow5.rs lines 66-70 (a failed assertion is a
fatal configuration error raised before any row is assigned).  `panicked`
embeds a Rust `panic!` with its message; the only panic reachable from the
operations modelled here is the invalid-absorb-state panic in `add_input`
(pow5.rs line 387). -/
inductive SynthErr where
  | rateMismatch : SynthErr
  | oddFullRounds : SynthErr
  | oddPartRounds : SynthErr
  | panicked : String → SynthErr
deriving DecidableEq

/-- The numeric part of a `Pow5Config` as built by `configure`
(pow5.rs lines 196-211): the derived round schedule plus the S-box exponent.
Column and selector handles are opaque engine resources and are not part of
the value-level model; the round constants and matrices are carried by
`Pow5Config` below. -/
structure ConfigCore where
  half_full_rounds : Nat
  full_part_rounds : Nat
  alpha : Nat
deriving DecidableEq

/-- Embedding of `Pow5Chip::configure` (pow5.rs lines 59-212), restricted to
its checks and derived numeric data.  The source runs
`assert_eq!(RATE, WIDTH - 1)`, `assert!(S::full_rounds() & 1 == 0)` and
`assert!(S::partial_rounds() & 1 == 0)` in that order before touching the
constraint system; each failed assertion is a distinct fatal error.  On
success it stores `half_full_rounds = full_rounds / 2`,
`full_partial_rounds = partial_rounds` and `alpha = [5, 0, 0, 0]`
(the exponent 5). -/
def configure (WIDTH RATE full_rounds part_rounds : Nat) : Except SynthErr ConfigCore :=
  if RATE = WIDTH - 1 then
    if full_rounds &&& 1 = 0 then
      if part_rounds &&& 1 = 0 then
        Except.ok { half_full_rounds := full_rounds / 2
                    full_part_rounds := part_rounds
                    alpha := 5 }
      else Except.error SynthErr.oddPartRounds
    else Except.error SynthErr.oddFullRounds
  else Except.error SynthErr.rateMismatch

theorem configure_isOk (WIDTH RATE full_rounds part_rounds : Nat) :
    (configure WIDTH RATE full_rounds part_rounds).isOk = true ↔
      (RATE = WIDTH - 1 ∧ full_rounds % 2 = 0 ∧ part_rounds % 2 = 0) := by
  unfold configure
  split_ifs with h1 h2 h3 <;>
    simp_all [Except.isOk, Except.toBool, ← Nat.and_one_is_mod]

/-- Claim C4: `configure` fails with a fatal configuration error — before any
row is ever assigned — whenever `rate ≠ width - 1`, or the Spec reports an odd
`full_rounds`, or an odd `partial_rounds`; for every width, rate and Spec
satisfying all three conditions it succeeds and returns a configuration.
The model of `configure` performs no row assignment at all, so a failure
happens before any row is assigned by construction. -/
theorem claim_C4 (WIDTH RATE full_rounds part_rounds : Nat) :
    (configure WIDTH RATE full_rounds part_rounds).isOk = true ↔
      (RATE = WIDTH - 1 ∧ full_rounds % 2 = 0 ∧ part_rounds % 2 = 0) :=
  configure_isOk WIDTH RATE full_rounds part_rounds

theorem claim_C4_witness : (configure 3 2 8 2).isOk = true :=
  (claim_C4 3 2 8 2).mpr (by decide)

/-- Claim C8 counterexample: width 5 is not a member of `WIDTH_CHOICES`, yet
`configure` accepts it (with rate 4 and even round counts 8 and 2).  The
enumeration is declared but never consulted by `configure`, so the claim that
a width outside the enumeration is rejected at setup time is false. -/
theorem claim_C8_counterexample :
    ¬(5 ∈ WIDTH_CHOICES) ∧ (configure 5 4 8 2).isOk = true := by
  decide

/-- Claim C8 (amended): the supported widths are declared as the fixed
enumeration {2, 3, 4, 8, 12, 16, 20, 24} (the constant `WIDTH_CHOICES`), but
`configure` does not validate membership in it: it accepts any width —
inside or outside the enumeration — provided `rate = width - 1` and both
round counts are even. -/
theorem claim_C8_amended :
    WIDTH_CHOICES = [2, 3, 4, 8, 12, 16, 20, 24] ∧
      ∀ WIDTH RATE full_rounds part_rounds : Nat,
        RATE = WIDTH - 1 → full_rounds % 2 = 0 → part_rounds % 2 = 0 →
          (configure WIDTH RATE full_rounds part_rounds).isOk = true := by
  refine ⟨rfl, ?_⟩
  intro WIDTH RATE full_rounds part_rounds h1 h2 h3
  exact (configure_isOk WIDTH RATE full_rounds part_rounds).mpr ⟨h1, h2, h3⟩

theorem claim_C8_witness : (configure 2 1 4 2).isOk = true :=
  claim_C8_amended.2 2 1 4 2 rfl rfl rfl

/-- The S-box exponent: `alpha = [5, 0, 0, 0]` stored in `Pow5Config`
(pow5.rs line 90) and used as `q.pow(config.alpha)`, i.e. x^5. -/
def alphaExp : Nat := 5

/-- The `pow_5` closure registered with the gates (pow5.rs lines 91-94):
`v2 = v * v; v2 * v2 * v`. -/
def pow_5 {F : Type} [CommRing F] (v : F) : F :=
  let v2 := v * v
  v2 * v2 * v

/-- The constant data of a `Pow5Config` (pow5.rs lines 22-38) that the round
execution engine reads: the round schedule, the per-round constants
`round_constants` (a vector of width-sized rows, embedded as a total function
on round indices) and the two mixing matrices.  Column and selector handles
are engine resources and carry no values. -/
structure Pow5Config (W : Nat) (F : Type) where
  half_full_rounds : Nat
  full_part_rounds : Nat
  round_constants : Nat → Fin W → F
  mat_external : Fin W → Fin W → F
  mat_internal : Fin W → Fin W → F

/-- Collecting an iterator of `Value<F>` into a `Value<Vec<F>>`
(`let r: Value<Vec<F>> = q.collect()`): the result is known exactly when
every entry is known. -/
def collectV {F : Type} {W : Nat} (s : Fin W → Option F) : Option (Fin W → F) :=
  if h : ∀ i, (s i).isSome then some (fun i => (s i).get (h i)) else none

/-- Witness computation of `Pow5State::first_layer` (pow5.rs lines 483-519):
collect the current row into one optional vector `r`, then write
`next[i] = Σ_j mat_external[i][j] * r[j]` into the next row.  The selector
`s_first` is enabled at offset 0; see `permute_sels`. -/
def first_layer {F : Type} [CommRing F] {W : Nat} (c : Pow5Config W F)
    (s : Fin W → Option F) : Fin W → Option F :=
  let r := collectV s
  fun i => r.map (fun t => ∑ j, c.mat_external i j * t j)

/-- Witness computation of `Pow5State::full_round` (pow5.rs lines 521-546):
`q[idx] = cur[idx] + round_constants[round][idx]`, `r = collect (q^alpha)`,
`next[i] = Σ_j mat_external[i][j] * r[j]`. -/
def full_round {F : Type} [CommRing F] {W : Nat} (c : Pow5Config W F) (round : Nat)
    (s : Fin W → Option F) : Fin W → Option F :=
  let r := collectV (fun idx =>
    (s idx).map (fun v => (v + c.round_constants round idx) ^ alphaExp))
  fun i => r.map (fun t => ∑ j, c.mat_external i j * t j)

/-- Witness computation of `Pow5State::partial_round` (pow5.rs lines 548-587;
the identifier is shortened because `partial` is a Lean keyword): collect the
current row into `p`; build `r` with `r[0] = (p[0] + rc[round][0])^alpha` and
`r[j] = p[j]` for `j ≥ 1`; the first component of the result is the value
`r[0]` assigned into the dedicated `partial_sbox` column at the round row
(offset), and the second is the next row
`next[i] = Σ_j mat_internal[i][j] * r[j]`. -/
def part_round {F : Type} [CommRing F] {W : Nat} [NeZero W] (c : Pow5Config W F)
    (round : Nat) (s : Fin W → Option F) : Option F × (Fin W → Option F) :=
  let p := collectV s
  let r := p.map (fun t => fun j : Fin W =>
    if j = 0 then (t 0 + c.round_constants round 0) ^ alphaExp else t j)
  (r.map (fun t => t 0), fun i => r.map (fun t => ∑ j, c.mat_internal i j * t j))

/-- Witness computation of `PoseidonInstructions::permute`
(pow5.rs lines 260-302): load the initial state (pure wiring, values
unchanged), apply the first linear layer, then `half_full_rounds` full
rounds with round indices `0..`, then `full_partial_rounds` partial rounds
with round indices `half_full_rounds + r`, then `half_full_rounds` full
rounds with round indices `half_full_rounds + full_partial_rounds + r`.
The source folds over `Result` to thread engine errors; the engine is
modelled as always succeeding, so the fold is over states. -/
def permute {F : Type} [CommRing F] {W : Nat} [NeZero W] (c : Pow5Config W F)
    (s : Fin W → Option F) : Fin W → Option F :=
  let s1 := first_layer c s
  let s2 := (List.range c.half_full_rounds).foldl (fun st r => full_round c r st) s1
  let s3 := (List.range c.full_part_rounds).foldl
    (fun st r => (part_round c (c.half_full_rounds + r) st).2) s2
  (List.range c.half_full_rounds).foldl
    (fun st r => full_round c (c.half_full_rounds + c.full_part_rounds + r) st) s3

/-- Modelled from the spec: the pre-mix layer of the plain reference
permutation, `next[i] = Σ_j external[i][j] * cur[j]` (spec section 4.1 family
1 and section 4.2 preMix).  The plain non-circuit reference implementation
(`base::primitives::permute`) is not under `src/`, so it is modelled from the
formulas and round ordering the spec gives. -/
def ref_first_layer {F : Type} [CommRing F] {W : Nat} (c : Pow5Config W F)
    (s : Fin W → F) : Fin W → F :=
  fun i => ∑ j, c.mat_external i j * s j

/-- Modelled from the spec: a full round of the plain reference permutation,
`next[i] = Σ_j external[i][j] * (cur[j] + rc[round][j])^5` (spec section 4.1
family 2 and section 4.2 fullRound). -/
def ref_full_round {F : Type} [CommRing F] {W : Nat} (c : Pow5Config W F)
    (round : Nat) (s : Fin W → F) : Fin W → F :=
  fun i => ∑ j, c.mat_external i j * (s j + c.round_constants round j) ^ 5

/-- Modelled from the spec: a partial round of the plain reference
permutation, `next[i] = Σ_j internal[i][j] * v[j]` with
`v[0] = (cur[0] + rc[round][0])^5` and `v[j] = cur[j]` for `j ≥ 1`
(spec section 4.1 family 3 and section 4.2 partialRound). -/
def ref_part_round {F : Type} [CommRing F] {W : Nat} [NeZero W] (c : Pow5Config W F)
    (round : Nat) (s : Fin W → F) : Fin W → F :=
  fun i => ∑ j, c.mat_internal i j *
    (if j = 0 then (s 0 + c.round_constants round 0) ^ 5 else s j)

/-- Modelled from the spec: the plain (non-circuit) reference Poseidon
permutation (spec sections 4.2 permute and 8 Oracle equivalence): preMix,
then `half_full_rounds` full rounds, then the partial rounds, then
`half_full_rounds` full rounds, consuming round indices `0..total_rounds` in
that exact order. -/
def ref_permute {F : Type} [CommRing F] {W : Nat} [NeZero W] (c : Pow5Config W F)
    (s : Fin W → F) : Fin W → F :=
  let s1 := ref_first_layer c s
  let s2 := (List.range c.half_full_rounds).foldl (fun st r => ref_full_round c r st) s1
  let s3 := (List.range c.full_part_rounds).foldl
    (fun st r => ref_part_round c (c.half_full_rounds + r) st) s2
  (List.range c.half_full_rounds).foldl
    (fun st r => ref_full_round c (c.half_full_rounds + c.full_part_rounds + r) st) s3

theorem collectV_some {F : Type} {W : Nat} (s : Fin W → F) :
    collectV (fun i => some (s i)) = some s := by
  unfold collectV
  have h : ∀ i : Fin W, ((fun i => some (s i)) i).isSome = true := fun i => rfl
  rw [dif_pos h]
  rfl

theorem first_layer_known {F : Type} [CommRing F] {W : Nat} (c : Pow5Config W F)
    (s : Fin W → F) :
    first_layer c (fun i => some (s i)) = fun i => some (ref_first_layer c s i) := by
  unfold first_layer ref_first_layer
  rw [collectV_some]
  rfl

theorem full_round_known {F : Type} [CommRing F] {W : Nat} (c : Pow5Config W F)
    (round : Nat) (s : Fin W → F) :
    full_round c round (fun i => some (s i)) =
      fun i => some (ref_full_round c round s i) := by
  unfold full_round ref_full_round
  have h : (fun idx : Fin W =>
      (some (s idx)).map (fun v => (v + c.round_constants round idx) ^ alphaExp)) =
      fun idx : Fin W => some ((s idx + c.round_constants round idx) ^ alphaExp) := rfl
  rw [h, collectV_some]
  rfl

theorem part_round_known {F : Type} [CommRing F] {W : Nat} [NeZero W]
    (c : Pow5Config W F) (round : Nat) (s : Fin W → F) :
    part_round c round (fun i => some (s i)) =
      (some ((s 0 + c.round_constants round 0) ^ alphaExp),
        fun i => some (ref_part_round c round s i)) := by
  unfold part_round ref_part_round
  rw [collectV_some]
  rfl

theorem foldl_some {F : Type} {W : Nat}
    (stepV : Nat → (Fin W → Option F) → (Fin W → Option F))
    (stepP : Nat → (Fin W → F) → (Fin W → F))
    (hcomm : ∀ r t, stepV r (fun i => some (t i)) = fun i => some (stepP r t i)) :
    ∀ (l : List Nat) (t : Fin W → F),
      l.foldl (fun st r => stepV r st) (fun i => some (t i)) =
        fun i => some (l.foldl (fun st r => stepP r st) t i) := by
  intro l
  induction l with
  | nil => intro t; rfl
  | cons a l ih =>
    intro t
    simp only [List.foldl_cons]
    rw [hcomm a t]
    exact ih (stepP a t)

theorem permute_known {F : Type} [CommRing F] {W : Nat} [NeZero W]
    (c : Pow5Config W F) (s : Fin W → F) :
    permute c (fun i => some (s i)) = fun i => some (ref_permute c s i) := by
  simp only [permute, ref_permute]
  rw [first_layer_known]
  rw [foldl_some (fun r st => full_round c r st) (fun r st => ref_full_round c r st)
    (fun r t => full_round_known c r t)]
  rw [foldl_some (fun r st => (part_round c (c.half_full_rounds + r) st).2)
    (fun r st => ref_part_round c (c.half_full_rounds + r) st)
    (fun r t => congrArg Prod.snd (part_round_known c (c.half_full_rounds + r) t))]
  rw [foldl_some
    (fun r st => full_round c (c.half_full_rounds + c.full_part_rounds + r) st)
    (fun r st => ref_full_round c (c.half_full_rounds + c.full_part_rounds + r) st)
    (fun r t => full_round_known c (c.half_full_rounds + c.full_part_rounds + r) t)]

/-- One registered polynomial identity of the "full round" gate
(pow5.rs lines 117-137): for output index `i`, the registered constraint is
`sel * (Σ_j pow_5(cur[j] + rc[j]) * mat_external[i][j] - next[i])`, where
`sel` is the queried `s_full` selector, `cur`/`next` are the state columns at
the current and next row and `rc` the fixed round-constant columns at the
current row (`Constraints::with_selector` multiplies every listed expression
by the selector). -/
def full_round_gate {F : Type} [CommRing F] {W : Nat} (c : Pow5Config W F)
    (sel : F) (rc cur next : Fin W → F) (i : Fin W) : F :=
  sel * ((∑ j, pow_5 (cur j + rc j) * c.mat_external i j) - next i)

theorem pow_5_eq_pow {F : Type} [CommRing F] (v : F) : pow_5 v = v ^ 5 := by
  unfold pow_5
  ring

/-- A fixed concrete width-3 Spec instance over the prime field `ZMod 101`
standing in for the reference `P128Pow5T3` parameters (whose constant tables
live outside this crate): 8 full rounds (so `half_full_rounds = 4`), 2
partial rounds, and explicit round constants and matrices. -/
def cfg3 : Pow5Config 3 (ZMod 101) where
  half_full_rounds := 4
  full_part_rounds := 2
  round_constants := fun r i => (r : ZMod 101) + ((i : Nat) : ZMod 101) + 1
  mat_external := fun i j => (((i : Nat) * 3 + (j : Nat) + 2 : Nat) : ZMod 101)
  mat_internal := fun i j => (((i : Nat) * 5 + (j : Nat) * 2 + 1 : Nat) : ZMod 101)

/-- The concrete input vector `[0, 1, 2]` of field elements. -/
def vec012 : Fin 3 → ZMod 101 := ![0, 1, 2]

/-- Claim C1: for every supported width (every `W + 1`), rate and Spec
(arbitrary round schedule, round constants and matrices) and every vector of
width field elements, the witness values produced by `permute` on the known
input equal, component-wise, the output of the plain non-circuit reference
Poseidon permutation on the same input; in particular for width 3, rate 2,
the fixed reference Spec `cfg3` and input `[0, 1, 2]` the outputs agree. -/
theorem claim_C1 :
    (∀ (W : Nat) (F : Type) [CommRing F] (c : Pow5Config (W + 1) F)
        (s : Fin (W + 1) → F),
      permute c (fun i => some (s i)) = fun i => some (ref_permute c s i)) ∧
    (∀ i, permute cfg3 (fun i => some (vec012 i)) i = some (ref_permute cfg3 vec012 i)) := by
  refine ⟨?_, ?_⟩
  · intro W F _ c s
    exact permute_known c s
  · intro i
    exact congrFun (permute_known cfg3 vec012) i

/-- Claim C2: for every full round index and every known input state, the
next-row witness values computed by `full_round`
(`next[i] = Σ_j external[i][j] * (cur[j] + rc[round][j])^5`) make every
polynomial identity of the registered "full round" gate evaluate to zero at
that row (for any selector value, in particular the enabled one); the round
constants queried by the gate at that row are the very
`round_constants[round]` that `Pow5State::round` loads into the fixed
columns. -/
theorem claim_C2 (W : Nat) (F : Type) [CommRing F] (c : Pow5Config W F)
    (round : Nat) (cur : Fin W → F) :
    (full_round c round (fun i => some (cur i)) =
      fun i => some (∑ j, c.mat_external i j * (cur j + c.round_constants round j) ^ 5)) ∧
    (∀ (sel : F) (i : Fin W),
      full_round_gate c sel (c.round_constants round) cur
        (fun i => ∑ j, c.mat_external i j * (cur j + c.round_constants round j) ^ 5) i = 0) := by
  constructor
  · exact full_round_known c round cur
  · intro sel i
    unfold full_round_gate
    have h : (∑ j, pow_5 (cur j + c.round_constants round j) * c.mat_external i j) =
        ∑ j, c.mat_external i j * (cur j + c.round_constants round j) ^ 5 := by
      refine Finset.sum_congr rfl (fun j _ => ?_)
      rw [pow_5_eq_pow]
      ring
    rw [h, sub_self, mul_zero]

/-- Claim C3: for every partial round index and every known input state,
`part_round` computes `mid = (cur[0] + rc[round][0])^5` (the first component
of its result, the value assigned into the dedicated partial-S-box column at
the round row) and produces `next[i] = Σ_j internal[i][j] * v[j]` where
`v[0] = mid` and `v[j] = cur[j]` for `j ≥ 1`: only index 0 passes through the
S-box, a round constant is added only at index 0, and indices `1..width-1`
enter the internal mix unchanged. -/
theorem claim_C3 (W : Nat) (F : Type) [CommRing F] (c : Pow5Config (W + 1) F)
    (round : Nat) (cur : Fin (W + 1) → F) :
    ((part_round c round (fun i => some (cur i))).1 =
      some ((cur 0 + c.round_constants round 0) ^ 5)) ∧
    ((part_round c round (fun i => some (cur i))).2 =
      fun i => some (∑ j, c.mat_internal i j *
        (if j = 0 then (cur 0 + c.round_constants round 0) ^ 5 else cur j))) := by
  constructor
  · exact congrArg Prod.fst (part_round_known c round cur)
  · exact congrArg Prod.snd (part_round_known c round cur)

theorem collectV_none {F : Type} {W : Nat} {s : Fin W → Option F}
    (h : ∃ i, s i = none) : collectV s = none := by
  unfold collectV
  rw [dif_neg]
  intro hall
  obtain ⟨i, hi⟩ := h
  have hh := hall i
  rw [hi] at hh
  simp at hh

theorem first_layer_unknown {F : Type} [CommRing F] {W : Nat} (c : Pow5Config W F)
    {s : Fin W → Option F} (h : ∃ i, s i = none) :
    ∀ j, first_layer c s j = none := by
  intro j
  simp only [first_layer]
  rw [collectV_none h]
  rfl

theorem full_round_unknown {F : Type} [CommRing F] {W : Nat} (c : Pow5Config W F)
    (round : Nat) {s : Fin W → Option F} (h : ∀ j, s j = none) :
    ∀ j, full_round c round s j = none := by
  intro j
  simp only [full_round]
  rw [collectV_none ⟨j, by rw [h j]; rfl⟩]
  rfl

theorem part_round_unknown {F : Type} [CommRing F] {W : Nat} [NeZero W]
    (c : Pow5Config W F) (round : Nat) {s : Fin W → Option F}
    (h : ∀ j, s j = none) :
    (part_round c round s).1 = none ∧ ∀ j, (part_round c round s).2 j = none := by
  have hp : collectV s = none := collectV_none ⟨⟨0, Nat.pos_of_ne_zero (NeZero.ne W)⟩, h _⟩
  constructor
  · simp only [part_round]
    rw [hp]
    rfl
  · intro j
    simp only [part_round]
    rw [hp]
    rfl

theorem foldl_unknown {F : Type} {W : Nat}
    (step : Nat → (Fin W → Option F) → (Fin W → Option F))
    (hstep : ∀ r t, (∀ j, t j = none) → ∀ j : Fin W, step r t j = none) :
    ∀ (l : List Nat) (t : Fin W → Option F), (∀ j, t j = none) →
      ∀ j, (l.foldl (fun st r => step r st) t) j = none := by
  intro l
  induction l with
  | nil => intro t ht j; exact ht j
  | cons a l ih =>
    intro t ht j
    simp only [List.foldl_cons]
    exact ih (step a t) (hstep a t ht) j

/-- Claim C10: if any single cell of the input state has an unknown
(deferred) value, `permute` still succeeds (its witness computation is total
and never fails on unknowns), and after the first linear layer every cell of
every subsequent row has an unknown value: the first layer collects the whole
row into one optional vector, so its entire output row is unknown; every full
or partial round maps an all-unknown row to an all-unknown row (including the
partial-S-box cell); and the returned final state is entirely unknown. -/
theorem claim_C10 (W : Nat) (F : Type) [CommRing F] (c : Pow5Config (W + 1) F)
    (s : Fin (W + 1) → Option F) (h : ∃ i, s i = none) :
    (∀ j, first_layer c s j = none) ∧
    (∀ (round : Nat) (t : Fin (W + 1) → Option F), (∀ j, t j = none) →
      (∀ j, full_round c round t j = none) ∧
      ((part_round c round t).1 = none ∧ ∀ j, (part_round c round t).2 j = none)) ∧
    (∀ j, permute c s j = none) := by
  refine ⟨first_layer_unknown c h, ?_, ?_⟩
  · intro round t ht
    exact ⟨full_round_unknown c round ht, part_round_unknown c round ht⟩
  · intro j
    simp only [permute]
    refine foldl_unknown _ (fun r t ht => full_round_unknown c _ ht) _ _ ?_ j
    refine foldl_unknown _ (fun r t ht => (part_round_unknown c _ ht).2) _ _ ?_
    refine foldl_unknown _ (fun r t ht => full_round_unknown c _ ht) _ _ ?_
    exact first_layer_unknown c h

/-- A trivial width-2 configuration used to witness claim C10 at a concrete
input. -/
def cfgW : Pow5Config 2 ℤ where
  half_full_rounds := 1
  full_part_rounds := 1
  round_constants := fun _ _ => 0
  mat_external := fun _ _ => 1
  mat_internal := fun _ _ => 1

/-- A concrete state whose first cell is unknown. -/
def sUnk : Fin 2 → Option ℤ := ![none, some 3]

theorem claim_C10_witness : permute cfgW sUnk 0 = none :=
  (claim_C10 1 ℤ cfgW sUnk ⟨0, rfl⟩).2.2 0

/-- The four selectors of a `Pow5Config` (pow5.rs lines 27-30): `s_first`,
`s_full`, `s_partial` (named `part` here since `partial` is a Lean keyword)
and `s_pad_and_add`. -/
inductive Sel where
  | first : Sel
  | full : Sel
  | part : Sel
  | padAndAdd : Sel
deriving DecidableEq

/-- The selector enablings performed while synthesizing one `permute` region
(pow5.rs lines 267-302): `first_layer` enables `s_first` at offset 0
(line 489); each round enables its gate selector at the offset `permute`
passes to it via `Pow5State::round` (line 598) — `r + 1` for the first batch
of full rounds, `half_full_rounds + r + 1` for the partial rounds and
`half_full_rounds + full_partial_rounds + r + 1` for the final batch of full
rounds. -/
def permute_sels (half pr : Nat) : List (Sel × Nat) :=
  [(Sel.first, 0)]
    ++ (List.range half).map (fun r => (Sel.full, r + 1))
    ++ (List.range pr).map (fun r => (Sel.part, half + r + 1))
    ++ (List.range half).map (fun r => (Sel.full, half + pr + r + 1))

/-- Identity of a cell that `add_input` wires with an equality constraint:
a cell supplied from elsewhere in the circuit (a `Message` word), a cell of
the fixed padding column `pad_fixed[col]` at a row, or a cell of the advice
state column `state[col]` at a row. -/
inductive CellId where
  | external : Nat → CellId
  | padFixed : Nat → Nat → CellId
  | adviceState : Nat → Nat → CellId
deriving DecidableEq

/-- `PaddedWord` (consumed by `add_input`, pow5.rs lines 373-388): either a
message word — an already-assigned cell (identified by a `CellId.external`
index) together with its possibly-unknown value — or a padding constant. -/
inductive PaddedWord (F : Type) where
  | Message : Nat → Option F → PaddedWord F
  | Padding : F → PaddedWord F
deriving DecidableEq

/-- Addition of two halo2 `Value`s: known exactly when both are known. -/
def val_add {F : Type} [CommRing F] (a b : Option F) : Option F :=
  match a, b with
  | some a, some b => some (a + b)
  | _, _ => none

/-- The `(cell, value)` pair `load_input_word` produces for slot `i`
(pow5.rs lines 374-388): a `Message` word contributes its own cell and value;
a `Padding` constant is first assigned into the fixed cell
`(pad_fixed[i], row 1)` and contributes that cell with the known constant. -/
def word_cell_val {F : Type} {R : Nat} (i : Fin R) :
    PaddedWord F → CellId × Option F
  | PaddedWord.Message cell v => (CellId.external cell, v)
  | PaddedWord.Padding p => (CellId.padFixed i.1 1, some p)

/-- Everything `add_input` produces in its region: the selector enablings,
the assignments into the fixed padding columns (column index, row, value),
the equality constraints recorded by `region.constrain_equal`, the values
witnessed into the row-1 input cells, and the row-2 output state values. -/
structure AddInputRes (W R : Nat) (F : Type) where
  sels : List (Sel × Nat)
  fixed_pad_assigns : List (Nat × Nat × F)
  eqs : List (CellId × CellId)
  input_vals : Fin R → Option F
  output : Fin W → Option F

/-- The successful branch of `add_input` (pow5.rs lines 346-422), given that
every absorbing slot is present: `s_pad_and_add` is enabled at row 1
(line 356); each `Padding` slot `i` assigns its constant into
`(pad_fixed[i], 1)` (lines 377-384); each slot `i < RATE` records the
equality constraint between its source cell and the advice input cell
`(state[i], 1)` (line 395); and row 2 receives
`output[i] = initial_state[i] + input[i]` for `i < RATE` and
`output[i] = initial_state[i] + known(0)` for the capacity index
(`input.get(i).unwrap_or(known(0))`, lines 402-417).  The row-0 copies of
the initial state are pure wiring and do not change any value. -/
def add_input_res {F : Type} [CommRing F] {W R : Nat} (initial : Fin W → Option F)
    (input : Fin R → Option (PaddedWord F)) (h : ∀ i, (input i).isSome) :
    AddInputRes W R F :=
  let word := fun i : Fin R => word_cell_val i ((input i).get (h i))
  { sels := [(Sel.padAndAdd, 1)]
    fixed_pad_assigns := (List.finRange R).filterMap (fun i =>
      match input i with
      | some (PaddedWord.Padding p) => some (i.1, 1, p)
      | _ => none)
    eqs := (List.finRange R).map (fun i => ((word i).1, CellId.adviceState i.1 1))
    input_vals := fun i => (word i).2
    output := fun i => val_add (initial i)
      (if h2 : (i : Nat) < R then (word ⟨i.1, h2⟩).2 else some 0) }

/-- Embedding of `PoseidonSpongeInstructions::add_input`
(pow5.rs lines 346-422).  A slot that is neither a `Message` word nor a
`Padding` constant (the `None` case of the `Option<PaddedWord>`) hits the
`_ => panic!("Input is not padded")` arm (line 387).  In the source the
per-slot results are collected through `Result`, stopping at the first bad
slot; every bad slot raises this same panic, so the embedding tests all the
slots up front. -/
def add_input {F : Type} [CommRing F] {W R : Nat} (initial : Fin W → Option F)
    (input : Fin R → Option (PaddedWord F)) : Except SynthErr (AddInputRes W R F) :=
  if h : ∀ i, (input i).isSome then Except.ok (add_input_res initial input h)
  else Except.error (SynthErr.panicked ("Input is not padded"))

/-- A cell valuation satisfies the constraints `add_input` generated when it
gives every assigned fixed padding cell its assigned constant and makes the
two sides of every recorded equality constraint equal — which is exactly
what the constraint-system engine enforces on any accepted witness. -/
def trace_holds {F : Type} [CommRing F] {W R : Nat} (val : CellId → F)
    (res : AddInputRes W R F) : Prop :=
  (∀ e ∈ res.fixed_pad_assigns, val (CellId.padFixed e.1 e.2.1) = e.2.2) ∧
  (∀ e ∈ res.eqs, val e.1 = val e.2)

theorem option_get_eq {α : Type} {o : Option α} {a : α} (h : o.isSome)
    (he : o = some a) : o.get h = a := by
  subst he
  rfl

/-- Claim C5: for every `add_input` call and every absorbing block
(all-message, all-padding, or mixed), the value of the returned state at
index `rate` (the capacity element, and likewise any index `≥ rate`) equals
the value of the input state at that index; only indices below `rate` are
changed, and those by adding the absorbed input word. -/
theorem claim_C5 (W R : Nat) (F : Type) [CommRing F] (initial : Fin W → Option F)
    (input : Fin R → Option (PaddedWord F)) (h : ∀ i, (input i).isSome) :
    add_input initial input = Except.ok (add_input_res initial input h) ∧
    (∀ i : Fin W, R ≤ i.1 → (add_input_res initial input h).output i = initial i) ∧
    (∀ (i : Fin W) (hi : i.1 < R),
      (add_input_res initial input h).output i =
        val_add (initial i) ((add_input_res initial input h).input_vals ⟨i.1, hi⟩)) := by
  refine ⟨?_, ?_, ?_⟩
  · unfold add_input
    exact dif_pos h
  · intro i hR
    simp only [add_input_res]
    rw [dif_neg (by omega)]
    cases hv : initial i with
    | none => rfl
    | some a =>
      simp only [val_add]
      rw [add_zero]
  · intro i hi
    simp only [add_input_res]
    rw [dif_pos hi]

/-- Concrete data witnessing claim C5: a width-3 state and a mixed absorbing
block with one message word and one padding constant. -/
def iEx5 : Fin 3 → Option ℤ := ![some 1, some 2, some 5]

def inEx5 : Fin 2 → Option (PaddedWord ℤ) :=
  ![some (PaddedWord.Message 0 (some 3)), some (PaddedWord.Padding 7)]

theorem hEx5 : ∀ i, (inEx5 i).isSome := by decide

theorem claim_C5_witness :
    (add_input_res iEx5 inEx5 hEx5).output ⟨2, Nat.lt.base 2⟩ =
      iEx5 ⟨2, Nat.lt.base 2⟩ :=
  (claim_C5 3 2 ℤ iEx5 inEx5 hEx5).2.1 ⟨2, Nat.lt.base 2⟩ (Nat.le_refl 2)

/-- Claim C6: for every `add_input` call and every index `i < rate` whose
absorbing slot is `Padding P`, `add_input` assigns `P` into the fixed padding
column at row 1 and records an equality constraint between the row-1 advice
input cell at column `i` and that fixed cell, so any valuation satisfying the
generated constraints — the condition the constraint-system engine enforces —
must give the input cell the value `P`; a witness with any other value there
is rejected. -/
theorem claim_C6 (W R : Nat) (F : Type) [CommRing F] (initial : Fin W → Option F)
    (input : Fin R → Option (PaddedWord F)) (h : ∀ i, (input i).isSome)
    (i : Fin R) (P : F) (hP : input i = some (PaddedWord.Padding P)) :
    (i.1, 1, P) ∈ (add_input_res initial input h).fixed_pad_assigns ∧
    (CellId.padFixed i.1 1, CellId.adviceState i.1 1) ∈ (add_input_res initial input h).eqs ∧
    (∀ val : CellId → F, trace_holds val (add_input_res initial input h) →
      val (CellId.adviceState i.1 1) = P) := by
  have hword : word_cell_val i ((input i).get (h i)) =
      (CellId.padFixed i.1 1, some P) := by
    rw [option_get_eq (h i) hP]
    rfl
  have hmem1 : (i.1, 1, P) ∈ (add_input_res initial input h).fixed_pad_assigns := by
    simp only [add_input_res]
    refine List.mem_filterMap.mpr ⟨i, List.mem_finRange i, ?_⟩
    rw [hP]
  have hmem2 : (CellId.padFixed i.1 1, CellId.adviceState i.1 1) ∈
      (add_input_res initial input h).eqs := by
    simp only [add_input_res]
    refine List.mem_map.mpr ⟨i, List.mem_finRange i, ?_⟩
    rw [hword]
  refine ⟨hmem1, hmem2, ?_⟩
  intro val hval
  have h1 := hval.1 (i.1, 1, P) hmem1
  have h2 := hval.2 (CellId.padFixed i.1 1, CellId.adviceState i.1 1) hmem2
  rw [← h2]
  exact h1

/-- Concrete data witnessing claim C6: the slot at index 1 is the padding
constant 7. -/
def iEx6 : Fin 3 → Option ℤ := ![some 0, some 0, some 9]

def inEx6 : Fin 2 → Option (PaddedWord ℤ) :=
  ![some (PaddedWord.Message 4 (some 3)), some (PaddedWord.Padding 7)]

theorem hEx6 : ∀ i, (inEx6 i).isSome := by decide

theorem claim_C6_witness :
    ((1 : Nat), 1, (7 : ℤ)) ∈ (add_input_res iEx6 inEx6 hEx6).fixed_pad_assigns :=
  (claim_C6 3 2 ℤ iEx6 inEx6 hEx6 1 7 (by decide)).1

/-- Claim C7: for every `add_input` call in which some absorbing slot is
neither a `Message` word nor a `Padding` constant (the slot is `None`),
`add_input` fails immediately, reporting to its caller the distinct
invalid-absorb-state failure — embedded as the panic
`"Input is not padded"`, which is the code realization of the
`InvalidAbsorbState` error — rather than silently defaulting the slot. -/
theorem claim_C7 (W R : Nat) (F : Type) [CommRing F] (initial : Fin W → Option F)
    (input : Fin R → Option (PaddedWord F)) (h : ∃ i, input i = none) :
    add_input initial input = Except.error (SynthErr.panicked ("Input is not padded")) := by
  unfold add_input
  rw [dif_neg]
  intro hall
  obtain ⟨i, hi⟩ := h
  have hh := hall i
  rw [hi] at hh
  simp at hh

/-- Concrete data witnessing claim C7: the slot at index 1 is missing. -/
def iEx7 : Fin 3 → Option ℤ := ![some 0, some 0, some 0]

def inEx7 : Fin 2 → Option (PaddedWord ℤ) :=
  ![some (PaddedWord.Message 0 (some 3)), none]

theorem claim_C7_witness :
    add_input iEx7 inEx7 = Except.error (SynthErr.panicked ("Input is not padded")) :=
  claim_C7 3 2 ℤ iEx7 inEx7 ⟨1, rfl⟩


theorem length_filter_map_eq (sel : Sel) (l : List Nat) (f : Nat → Nat) (ρ : Nat) :
    ((l.map (fun r => (sel, f r))).filter (fun e => e.2 == ρ)).length =
      (l.filter (fun r => f r == ρ)).length := by
  induction l with
  | nil => rfl
  | cons a l ih =>
    simp only [List.map_cons, List.filter_cons]
    cases hc : (f a == ρ) <;> simp [hc, ih]

theorem length_filter_range_f (ρ b : Nat) (f : Nat → Nat) (hf : ∀ r, f r = r + b) :
    ∀ k : Nat, ((List.range k).filter (fun r => f r == ρ)).length =
      if b ≤ ρ ∧ ρ < k + b then 1 else 0 := by
  intro k
  induction k with
  | zero =>
    rw [List.range_zero]
    simp only [List.filter_nil, List.length_nil]
    rw [if_neg (by omega)]
  | succ k ih =>
    rw [List.range_succ, List.filter_append, List.length_append, ih]
    by_cases h : f k = ρ
    · have hb : ρ = k + b := by rw [← h, hf k]
      have hc : (f k == ρ) = true := by simp [h]
      simp [List.filter_cons, List.filter_nil, hc]
      split_ifs <;> omega
    · have hb : ρ ≠ k + b := by rw [← hf k]; exact fun hc => h hc.symm
      have hc : (f k == ρ) = false := by simp [h]
      simp [List.filter_cons, List.filter_nil, hc]
      split_ifs <;> omega

theorem permute_sels_filter (half pr ρ : Nat) :
    ((permute_sels half pr).filter (fun e => e.2 == ρ)).length =
      if ρ < 1 + (half + (pr + half)) then 1 else 0 := by
  simp only [permute_sels, List.append_assoc, List.filter_append, List.length_append]
  rw [length_filter_map_eq Sel.full (List.range half) (fun r => r + 1) ρ,
    length_filter_map_eq Sel.part (List.range pr) (fun r => half + r + 1) ρ,
    length_filter_map_eq Sel.full (List.range half) (fun r => half + pr + r + 1) ρ,
    length_filter_range_f ρ 1 (fun r => r + 1) (fun r => rfl) half,
    length_filter_range_f ρ (half + 1) (fun r => half + r + 1)
      (fun r => by show half + r + 1 = r + (half + 1); omega) pr,
    length_filter_range_f ρ (half + pr + 1) (fun r => half + pr + r + 1)
      (fun r => by show half + pr + r + 1 = r + (half + pr + 1); omega) half]
  by_cases h0 : ρ = 0
  · subst h0
    simp [List.filter_cons, List.filter_nil]
  · have hb : ((0 : Nat) == ρ) = false := by
      simp only [beq_eq_false_iff_ne]
      exact fun hc => h0 hc.symm
    simp [List.filter_cons, List.filter_nil, hb]
    split_ifs <;> omega

/-- Claim C9: across any synthesized permutation region, writing
`T = 1 + total_rounds` (with `total_rounds = half_full_rounds +
(full_partial_rounds + half_full_rounds)`) for the number of row transitions,
every intermediate row `ρ < T` has exactly one selector of
`{first, full, partial}` enabled — never zero, never more than one — rows
`≥ T` have none, `first` is enabled only at row 0, and `pad_and_add` is never
enabled by `permute`; `add_input` enables exactly `pad_and_add`, at its
absorption row 1. -/
theorem claim_C9 (half pr : Nat) :
    (∀ ρ, ρ < 1 + (half + (pr + half)) →
      ((permute_sels half pr).filter (fun e => e.2 == ρ)).length = 1) ∧
    (∀ ρ, 1 + (half + (pr + half)) ≤ ρ →
      ((permute_sels half pr).filter (fun e => e.2 == ρ)).length = 0) ∧
    (∀ e ∈ permute_sels half pr, e.1 = Sel.first → e.2 = 0) ∧
    (∀ e ∈ permute_sels half pr, e.1 ≠ Sel.padAndAdd) ∧
    (∀ (W R : Nat) (F : Type) [CommRing F] (initial : Fin W → Option F)
      (input : Fin R → Option (PaddedWord F)) (h : ∀ i, (input i).isSome),
      (add_input_res initial input h).sels = [(Sel.padAndAdd, 1)]) := by
  refine ⟨?_, ?_, ?_, ?_, ?_⟩
  · intro ρ hρ
    rw [permute_sels_filter, if_pos hρ]
  · intro ρ hρ
    rw [permute_sels_filter, if_neg (by omega)]
  · intro e he hf
    simp only [permute_sels, List.append_assoc, List.mem_append, List.mem_cons,
      List.not_mem_nil, or_false, List.mem_map] at he
    rcases he with he | ⟨r, hr, he⟩ | ⟨r, hr, he⟩ | ⟨r, hr, he⟩
    · subst he; rfl
    · subst he; exact absurd hf (fun hc => Sel.noConfusion hc)
    · subst he; exact absurd hf (fun hc => Sel.noConfusion hc)
    · subst he; exact absurd hf (fun hc => Sel.noConfusion hc)
  · intro e he
    simp only [permute_sels, List.append_assoc, List.mem_append, List.mem_cons,
      List.not_mem_nil, or_false, List.mem_map] at he
    rcases he with he | ⟨r, hr, he⟩ | ⟨r, hr, he⟩ | ⟨r, hr, he⟩
    · subst he; exact fun hc => Sel.noConfusion hc
    · subst he; exact fun hc => Sel.noConfusion hc
    · subst he; exact fun hc => Sel.noConfusion hc
    · subst he; exact fun hc => Sel.noConfusion hc
  · intro W R F _ initial input h
    rfl

theorem claim_C9_witness :
    ((permute_sels 2 1).filter (fun e => e.2 == 3)).length = 1 :=
  (claim_C9 2 1).1 3 (by omega)
